import Mathlib

/-!
Verification of the batch image-OCR pipeline implemented in `src/main.py`
(class `ImageProcessor`).  The Python program is embedded shallowly:

* strings are modelled as `List Char` (Python `str` is a sequence of
  characters; `String.data` converts Lean literals);
* the floating-point arithmetic of `optimize_image` is modelled exactly: a
  positive binary64 value is a significand-exponent pair, division and
  multiplication round to the nearest representable value with ties to even,
  and `int` truncates (`optimize_image_size_float`); the spec's intended
  exact-rational scaling is kept alongside for comparison
  (`intended_scaled_size`);
* exception-raising operations are modelled as `Option`-valued environments:
  `none` stands for "this call raised an exception" (the exception is caught
  by the surrounding `try`/`except`, which logs and moves on);
* the run's side effects on the output file are modelled as the ordered list
  of records appended during the run (`List OutputRecord`); file contents are
  never read back by the program, so this captures its observable output.
-/

/-- Embedding of `chunk_list` (src/main.py:97-99):
`[lst[i:i + chunk_size] for i in range(0, len(lst), chunk_size)]`.
Python's `range(0, L, n)` for `n ≥ 1` enumerates `0, n, 2n, ...` below `L`,
which has `⌈L/n⌉ = (L + n - 1) / n` elements, and the slice `lst[i:i+n]` is
`(lst.drop i).take n`.  (For `chunk_size = 0` Python's `range` raises
`ValueError`; the spec requires the bound to be ≥ 1, and our formula happens
to return `[]` in that unreachable case.) -/
def chunk_list (lst : List α) (chunk_size : Nat) : List (List α) :=
  (List.range' 0 ((lst.length + chunk_size - 1) / chunk_size) chunk_size).map
    (fun i => (lst.drop i).take chunk_size)

/-- The extension allow-list of the discovery filter (src/main.py:105):
the tuple argument of `str.endswith`. -/
def allowed_extensions : List (List Char) :=
  [".png".data, ".jpg".data, ".jpeg".data, ".gif".data]

/-- Embedding of Python `f.lower()` for file names.  `Char.toLower` lower-cases
the ASCII letters, which is exact for the ASCII extension matching done here. -/
def lower_name (f : List Char) : List Char := f.map Char.toLower

/-- Embedding of the discovery filter predicate (src/main.py:105):
`f.lower().endswith(('.png', '.jpg', '.jpeg', '.gif'))` — `str.endswith` with
a tuple succeeds iff the string ends with some member of the tuple. -/
def matches_extension (f : List Char) : Bool :=
  allowed_extensions.any (fun ext => ext.isSuffixOf (lower_name f))

/-- Embedding of the discovery list comprehension (src/main.py:105):
`[f for f in os.listdir(self.image_dir) if f.lower().endswith(...)]`,
as a function of the directory-listing result. -/
def list_images (entries : List (List Char)) : List (List Char) :=
  entries.filter matches_extension

/-- Spec-side predicate (section 4.1 of the specification): the name has one
of the allowed extensions in some letter case, i.e. some suffix of the name
lower-cases to a member of the allow-list.  Written from the spec's words, to
be compared with the source-derived `matches_extension`. -/
def has_allowed_extension (f : List Char) : Prop :=
  ∃ ext ∈ allowed_extensions, ∃ s : List Char, s <:+ f ∧ lower_name s = ext

/-- Fuel-driven floor of the base-2 logarithm.  Structural recursion on the
fuel so that concrete evaluation reduces inside the kernel; exact whenever
`n < 2 ^ fuel`. -/
def log2_fuel : Nat → Nat → Nat
  | 0, _ => 0
  | fuel + 1, n => if n ≤ 1 then 0 else log2_fuel fuel (n / 2) + 1

/-- Floor of the base-2 logarithm of a natural number, exact for `n < 2 ^ 200`
— far beyond every quantity arising in this model. -/
def nat_log2 (n : Nat) : Nat := log2_fuel 200 n

/-- Round the quotient `N / D` to the nearest integer, ties to even — the
IEEE-754 default rounding. -/
def round_half_even (N D : Nat) : Nat :=
  let q := N / D
  let r := N % D
  if 2 * r < D then q
  else if D < 2 * r then q + 1
  else if q % 2 = 0 then q else q + 1

/-- Floor of the base-2 logarithm of the positive rational `a / b`: it is
`nat_log2 a - nat_log2 b` or one less, and an exact integer comparison
decides which. -/
def floor_log2_rat (a b : Nat) : Int :=
  let e0 : Int := (nat_log2 a : Int) - (nat_log2 b : Int)
  if 0 ≤ e0 then
    if b * 2 ^ e0.toNat ≤ a then e0 else e0 - 1
  else
    if b ≤ a * 2 ^ (-e0).toNat then e0 else e0 - 1

/-- A positive binary64 (IEEE-754 double) value, represented exactly as
`m * 2 ^ (e - 52)` with `2 ^ 52 ≤ m < 2 ^ 53`.  (A rounding step may produce
`m = 2 ^ 53`; the represented value is still exact, so subsequent operations
are unaffected.)  The exponent is unbounded here: every value in the resize
computation lies far inside the normal range, so overflow, underflow and
subnormals cannot arise. -/
structure Float64Pos where
  m : Nat
  e : Int
deriving DecidableEq

/-- Round the positive rational `a / b` to the nearest binary64 value, ties
to even: scale the quotient into `[2 ^ 52, 2 ^ 53)` and round the scaled
significand. -/
def fl_pos (a b : Nat) : Float64Pos :=
  let e := floor_log2_rat a b
  let s : Int := 52 - e
  let m := if 0 ≤ s then round_half_even (a * 2 ^ s.toNat) b
           else round_half_even a (b * 2 ^ (-s).toNat)
  ⟨m, e⟩

/-- Binary64 product of the integer `w` (exactly representable: image
dimensions are far below `2 ^ 53`) with a positive double: the correctly
rounded value of the exact product `w * m * 2 ^ (e - 52)`. -/
def float_mul_nat (w : Nat) (x : Float64Pos) : Float64Pos :=
  if 0 ≤ x.e - 52 then fl_pos (w * x.m * 2 ^ (x.e - 52).toNat) 1
  else fl_pos (w * x.m) (2 ^ (52 - x.e).toNat)

/-- Python `int()` applied to a positive double: truncation toward zero,
which on a positive value is the floor. -/
def py_int_pos (x : Float64Pos) : Nat :=
  if 0 ≤ x.e - 52 then x.m * 2 ^ (x.e - 52).toNat
  else x.m / 2 ^ (52 - x.e).toNat

/-- Embedding of the size computation of `optimize_image` (src/main.py:43-46)
under the binary64 arithmetic the program actually performs:
`ratio = max_size / max(img.size)` is the correctly rounded double of the
exact quotient (both integers convert to doubles exactly at these
magnitudes), each `int(dim * ratio)` is the truncation of the correctly
rounded double product.  Checked against CPython: `800 / 1078` is the double
`6684377925596283 * 2 ^ (-53)` (hex `1.7bf6803ccb47b * 2 ^ (-1)`), and
`int(1078 * (800 / 1078))` is `799`. -/
def optimize_image_size_float (w h max_size : Nat) : Nat × Nat :=
  if max_size < max w h then
    let ratio := fl_pos max_size (max w h)
    (py_int_pos (float_mul_nat w ratio), py_int_pos (float_mul_nat h ratio))
  else
    (w, h)

/-- The spec's intended size computation (sections 4.2 and 8, and the
parenthetical definition inside claim C3): scale each dimension by the exact
ratio `max_size / max(img.size)` and truncate, in exact rational arithmetic —
which on non-negative values is natural-number division.  This is the intent
the program approximates; the program itself computes with binary64 floats
(`optimize_image_size_float`) and undershoots this intent at some sizes. -/
def intended_scaled_size (w h max_size : Nat) : Nat × Nat :=
  if max_size < max w h then
    (w * max_size / max w h, h * max_size / max w h)
  else
    (w, h)

/-- Single-character deletion pass: embedding of Python
`s.replace(c, "")`, which scans the string once and drops every occurrence
of the one-character pattern `c`. -/
def py_replace_all (pattern : Char) : List Char → List Char
  | [] => []
  | c :: cs =>
    if c = pattern then py_replace_all pattern cs
    else c :: py_replace_all pattern cs

/-- Embedding of the response normalization (src/main.py:85):
`content.replace("*", "").replace("#", "").replace(" ", "")`. -/
def clean_text (s : List Char) : List Char :=
  py_replace_all ' ' (py_replace_all '#' (py_replace_all '*' s))

/-- The fixed instruction string of the recognition request (src/main.py:75):
the literal `"识别图片的文字："`. -/
def instruction_text : List Char := "识别图片的文字：".data

/-- Embedding of the inline image reference (src/main.py:78):
`f"data:image/jpeg;base64,(base64_image)"` — the literal data-URI head
followed by the base64 payload. -/
def image_data_url (base64_image : List Char) : List Char :=
  "data:image/jpeg;base64,".data ++ base64_image

/-- One element of the `content` array of the single user message sent to the
recognition API (src/main.py:74-80). -/
inductive ContentPart where
  | text (t : List Char)
  | image_url (url : List Char)
deriving DecidableEq

/-- Embedding of the `content` list of the request message (src/main.py:74-80):
one text part holding the fixed instruction and one image part holding the
inline data URI. -/
def build_message_content (base64_image : List Char) : List ContentPart :=
  [ContentPart.text instruction_text,
   ContentPart.image_url (image_data_url base64_image)]

/-- Per-image environment: the outcomes of the two effectful calls made by
`process_single_image` for one file name.
`optimize = none` means `optimize_image` failed (it catches any read, decode,
resize or encode exception at src/main.py:52-54 and returns `None`);
`respond = none` means the API call or response access raised (transport,
authentication or malformed-response error, caught at src/main.py:88-90);
`respond = some content` is `response.choices[0].message.content`.
`timestamp` is the formatted `datetime.now()` of src/main.py:86. -/
structure ImageEnv where
  optimize : Option (List Char)
  respond : Option (List Char)
  timestamp : List Char

/-- The separator line `'='*80` used in the result block (src/main.py:86). -/
def separator_line : List Char := List.replicate 80 '='

/-- Embedding of the result block f-string (src/main.py:86). -/
def format_result (image_name result timestamp : List Char) : List Char :=
  "文件名: ".data ++ image_name ++ "\n处理结果: ".data ++ result ++
    "\n时间: ".data ++ timestamp ++ "\n".data ++ separator_line ++ "\n".data

/-- Embedding of `process_single_image` (src/main.py:56-90) as a function of
the per-image environment.  Every exception inside the `try` block is caught
at src/main.py:88 and turned into `None`; `optimize_image` already catches its
own exceptions and returns `None`, checked by `if not base64_image` (which in
Python is also true for an empty string, hence the emptiness test). -/
def process_single_image (env : List Char → ImageEnv) (image_name : List Char) :
    Option (List Char) :=
  match (env image_name).optimize with
  | none => none
  | some base64_image =>
    if base64_image = [] then none
    else
      match (env image_name).respond with
      | none => none
      | some content =>
        some (format_result image_name (clean_text content)
          (env image_name).timestamp)

/-- Embedding of `process_batch` (src/main.py:92-95): `asyncio.gather` over
one task per batch element returns the list of their results in order
(`process_single_image` never raises, so `gather` always completes). -/
def process_batch (env : List Char → ImageEnv) (batch : List (List Char)) :
    List (Option (List Char)) :=
  batch.map (process_single_image env)

/-- A record appended to the output file during a run. -/
inductive OutputRecord where
  | header (timestamp : List Char)
  | result (block : List Char)
  | summary (elapsed : ℚ) (count : Nat) (average : ℚ)
deriving DecidableEq

/-- Recognizer for header records. -/
def OutputRecord.isHeader : OutputRecord → Bool
  | .header _ => true
  | _ => false

/-- Recognizer for per-image result records. -/
def OutputRecord.isResult : OutputRecord → Bool
  | .result _ => true
  | _ => false

/-- Recognizer for summary records. -/
def OutputRecord.isSummary : OutputRecord → Bool
  | .summary _ _ _ => true
  | _ => false

/-- Run-level environment: the outcome of `os.listdir` (`none` = the listing
raised, caught at src/main.py:136-137), the per-image environments, the
header timestamp of src/main.py:114, and the elapsed wall-clock time of
src/main.py:128 modelled as an exact rational. -/
structure RunEnv where
  listing : Option (List (List Char))
  perImage : List Char → ImageEnv
  start_ts : List Char
  elapsed : ℚ

/-- Python truthiness filter of the write loop (src/main.py:122-125):
`if result:` writes the block only when it is a non-empty string. -/
def truthy (r : Option (List Char)) : Option (List Char) :=
  match r with
  | none => none
  | some s => if s = [] then none else some s

/-- Embedding of `process_images` (src/main.py:101-137) as the ordered list of
records appended to the output file.  If `os.listdir` raises, the `except`
arm at src/main.py:136 logs and nothing was written; if the filtered list is
empty the function returns at src/main.py:109 before the header write; else
one header record, then for each batch in discovery order the truthy results
of that batch, then one summary record with the count of discovered images
and the average `elapsed / count`. -/
def process_images (env : RunEnv) (max_workers : Nat) : List OutputRecord :=
  match env.listing with
  | none => []
  | some entries =>
    let images := list_images entries
    if images = [] then []
    else
      OutputRecord.header env.start_ts ::
        (((chunk_list images max_workers).map
            (fun batch => (process_batch env.perImage batch).filterMap truthy)).flatten.map
          OutputRecord.result ++
        [OutputRecord.summary env.elapsed images.length
          (env.elapsed / (images.length : ℚ))])

/-! ### Properties of `chunk_list` -/

/-- Chunking the empty list gives no chunks. -/
theorem chunk_list_nil (n : Nat) : chunk_list ([] : List α) n = [] := by
  have h : (n - 1) / n = 0 := by
    cases n with
    | zero => simp
    | succ m => exact Nat.div_eq_of_lt (by omega)
  simp [chunk_list, h]

/-- Mapping over a `range'` started `t` later is mapping the shifted function
over the original `range'`. -/
theorem range'_map_shift (t step : Nat) (f : Nat → β) (k : Nat) :
    ∀ s : Nat, (List.range' (s + t) k step).map f
      = (List.range' s k step).map (fun i => f (i + t)) := by
  induction k with
  | zero => intro s; simp
  | succ m ih =>
    intro s
    rw [List.range'_succ, List.range'_succ, List.map_cons, List.map_cons]
    have h1 : s + t + step = s + step + t := by omega
    rw [h1, ih (s + step)]

/-- Unfolding law of `chunk_list` on a non-empty list: the first chunk is the
first `n` elements, the remaining chunks are the chunks of the rest. -/
theorem chunk_list_cons {n : Nat} (hn : 1 ≤ n) {lst : List α} (hlst : lst ≠ []) :
    chunk_list lst n = lst.take n :: chunk_list (lst.drop n) n := by
  have hlen : 1 ≤ lst.length := List.length_pos.mpr hlst
  have key : ∀ m, 1 ≤ m → (m + n - 1) / n = (m - 1) / n + 1 := by
    intro m hm
    have h : m + n - 1 = (m - 1) + n := by omega
    rw [h, Nat.add_div_right _ (by omega : 0 < n)]
  have hceil : (lst.length + n - 1) / n = ((lst.drop n).length + n - 1) / n + 1 := by
    rw [List.length_drop]
    rcases Nat.lt_or_ge n lst.length with h | h
    · rw [key lst.length hlen, key (lst.length - n) (by omega)]
      have h2 : lst.length - 1 = (lst.length - n - 1) + n := by omega
      rw [h2, Nat.add_div_right _ (by omega : 0 < n)]
    · have h0 : lst.length - n = 0 := by omega
      rw [h0, key lst.length hlen]
      have h1 : (lst.length - 1) / n = 0 := Nat.div_eq_of_lt (by omega)
      have h2 : (0 + n - 1) / n = 0 := Nat.div_eq_of_lt (by omega)
      omega
  unfold chunk_list
  rw [hceil, List.range'_succ, List.map_cons, List.drop_zero]
  congr 1
  have h0n : 0 + n = n := by omega
  rw [h0n]
  have hsh := range'_map_shift n n (fun i => (lst.drop i).take n)
      (((lst.drop n).length + n - 1) / n) 0
  rw [Nat.zero_add] at hsh
  rw [hsh]
  exact List.map_congr_left (fun i _ => by rw [List.drop_drop, Nat.add_comm i n])

/-- Concatenating the chunks recovers the original list. -/
theorem chunk_list_flatten {n : Nat} (hn : 1 ≤ n) :
    ∀ lst : List α, (chunk_list lst n).flatten = lst
  | [] => by rw [chunk_list_nil]; rfl
  | a :: tl => by
    rw [chunk_list_cons hn (List.cons_ne_nil a tl), List.flatten_cons,
      chunk_list_flatten hn ((a :: tl).drop n), List.take_append_drop]
termination_by lst => lst.length
decreasing_by simp only [List.length_drop, List.length_cons]; omega

/-- A chunk list of a non-empty list is non-empty. -/
theorem chunk_list_ne_nil {n : Nat} (hn : 1 ≤ n) {lst : List α} (hlst : lst ≠ []) :
    chunk_list lst n ≠ [] := by
  rw [chunk_list_cons hn hlst]
  exact List.cons_ne_nil _ _

/-- Every chunk except possibly the last has length exactly `n`. -/
theorem chunk_list_dropLast_length {n : Nat} (hn : 1 ≤ n) :
    ∀ lst : List α, ∀ c ∈ (chunk_list lst n).dropLast, c.length = n
  | [] => by rw [chunk_list_nil]; intro c hc; cases hc
  | a :: tl => by
    intro c hc
    rw [chunk_list_cons hn (List.cons_ne_nil a tl)] at hc
    by_cases hdrop : (a :: tl).drop n = []
    · rw [hdrop, chunk_list_nil] at hc
      cases hc
    · rw [List.dropLast_cons_of_ne_nil (chunk_list_ne_nil hn hdrop)] at hc
      rcases List.mem_cons.mp hc with h | h
      · subst h
        have hlen : n ≤ (a :: tl).length := by
          by_contra hcon
          exact hdrop (List.drop_eq_nil_of_le (by omega))
        rw [List.length_take]
        omega
      · exact chunk_list_dropLast_length hn ((a :: tl).drop n) c h
termination_by lst => lst.length
decreasing_by simp only [List.length_drop, List.length_cons]; omega

/-- C1: for every list of filenames and every concurrency bound `N ≥ 1`,
`chunk_list` partitions the list into consecutive chunks whose concatenation
equals the original list, every chunk except possibly the last has length
exactly `N`, and each element occurs in the chunks exactly as often as in the
original list, so every discovered filename is dispatched exactly once. -/
theorem chunk_list_partition {α : Type} [DecidableEq α] (lst : List α) (N : Nat)
    (hN : 1 ≤ N) :
    (chunk_list lst N).flatten = lst ∧
    (∀ c ∈ (chunk_list lst N).dropLast, c.length = N) ∧
    (∀ x : α, ((chunk_list lst N).map (fun c => c.count x)).sum = lst.count x) := by
  refine ⟨chunk_list_flatten hN lst, chunk_list_dropLast_length hN lst, ?_⟩
  intro x
  rw [← chunk_list_flatten hN lst, List.count_flatten, chunk_list_flatten hN lst]

/-- Witness for C1 at the concrete list `[0, 1, 2, 3, 4, 5, 6]` and bound 3. -/
theorem chunk_list_partition_witness :
    1 ≤ 3 ∧
      ((chunk_list ([0, 1, 2, 3, 4, 5, 6] : List Nat) 3).flatten
          = [0, 1, 2, 3, 4, 5, 6] ∧
        (∀ c ∈ (chunk_list ([0, 1, 2, 3, 4, 5, 6] : List Nat) 3).dropLast,
          c.length = 3) ∧
        (∀ x : Nat,
          ((chunk_list ([0, 1, 2, 3, 4, 5, 6] : List Nat) 3).map
              (fun c => c.count x)).sum = ([0, 1, 2, 3, 4, 5, 6] : List Nat).count x)) :=
  ⟨by decide, chunk_list_partition [0, 1, 2, 3, 4, 5, 6] 3 (by decide)⟩

/-! ### Properties of the response normalization -/

/-- A single-character `replace` with empty replacement is a filter. -/
theorem py_replace_all_eq_filter (p : Char) (s : List Char) :
    py_replace_all p s = s.filter (fun c => !(c == p)) := by
  induction s with
  | nil => rfl
  | cons c cs ih =>
    by_cases h : c = p
    · subst h
      simp [py_replace_all, ih]
    · simp [py_replace_all, h, ih]

/-- The composed normalization is a single filter dropping `'*'`, `'#'` and
`' '`. -/
theorem clean_text_eq_filter (s : List Char) :
    clean_text s
      = s.filter (fun c => !(c == '*') && !(c == '#') && !(c == ' ')) := by
  simp only [clean_text, py_replace_all_eq_filter, List.filter_filter]
  refine List.filter_congr ?_
  intro a _
  cases h1 : a == '*' <;> cases h2 : a == '#' <;> cases h3 : a == ' ' <;> simp [h1, h2, h3]

/-- C2: the normalization applied to the recognition response removes every
occurrence of `'*'`, `'#'` and `' '` and changes nothing else (it is the
filter keeping all other characters); it leaves text containing none of those
characters unchanged; it is idempotent; and it maps `"A * B # C"` to
`"ABC"`. -/
theorem clean_text_spec :
    (∀ s : List Char,
      clean_text s = s.filter (fun c => !(c == '*') && !(c == '#') && !(c == ' '))) ∧
    (∀ s : List Char, (∀ c ∈ s, c ≠ '*' ∧ c ≠ '#' ∧ c ≠ ' ') → clean_text s = s) ∧
    (∀ s : List Char, clean_text (clean_text s) = clean_text s) ∧
    clean_text "A * B # C".data = "ABC".data := by
  refine ⟨clean_text_eq_filter, ?_, ?_, by decide⟩
  · intro s hs
    rw [clean_text_eq_filter]
    refine List.filter_eq_self.mpr ?_
    intro a ha
    obtain ⟨h1, h2, h3⟩ := hs a ha
    simp [h1, h2, h3]
  · intro s
    rw [clean_text_eq_filter s, clean_text_eq_filter,
      List.filter_filter]
    refine List.filter_congr ?_
    intro a _
    cases h1 : a == '*' <;> cases h2 : a == '#' <;> cases h3 : a == ' ' <;>
      simp [h1, h2, h3]

/-- Witness for C2: the already-clean string `"ABC"` is returned unchanged. -/
theorem clean_text_spec_witness :
    (∀ c ∈ "ABC".data, c ≠ '*' ∧ c ≠ '#' ∧ c ≠ ' ') ∧
      clean_text "ABC".data = "ABC".data :=
  ⟨by decide, clean_text_spec.2.1 "ABC".data (by decide)⟩

/-! ### Properties of the resize computation -/

/-- Scaling both dimensions by the exact ratio `m / d` and truncating keeps
the cross products within `d` of each other: the aspect ratio is preserved
within rounding. -/
theorem scaled_aspect (w h d m : Nat) (hd : 0 < d) (hwd : w ≤ d) :
    (w * m / d) * h < (h * m / d) * w + d := by
  have hw := Nat.div_add_mod (w * m) d
  have hh := Nat.div_add_mod (h * m) d
  have hrh : h * m % d < d := Nat.mod_lt _ hd
  have e1 : (w * m / d) * h * d + (w * m % d) * h = w * m * h := by
    calc (w * m / d) * h * d + (w * m % d) * h
        = (d * (w * m / d) + w * m % d) * h := by ring
      _ = w * m * h := by rw [hw]
  have e2 : (h * m / d) * w * d + (h * m % d) * w = w * m * h := by
    calc (h * m / d) * w * d + (h * m % d) * w
        = (d * (h * m / d) + h * m % d) * w := by ring
      _ = (h * m) * w := by rw [hh]
      _ = w * m * h := by ring
  have key : (w * m / d) * h * d + (w * m % d) * h
      = (h * m / d) * w * d + (h * m % d) * w := by rw [e1, e2]
  have hb : (h * m % d) * w < d * d := by
    calc (h * m % d) * w ≤ (h * m % d) * d := Nat.mul_le_mul_left _ hwd
      _ < d * d := (Nat.mul_lt_mul_right hd).mpr hrh
  have final : (w * m / d) * h * d < ((h * m / d) * w + d) * d := by
    calc (w * m / d) * h * d
        ≤ (w * m / d) * h * d + (w * m % d) * h := Nat.le_add_right _ _
      _ = (h * m / d) * w * d + (h * m % d) * w := key
      _ < (h * m / d) * w * d + d * d := Nat.add_lt_add_left hb _
      _ = ((h * m / d) * w + d) * d := by ring
  exact lt_of_mul_lt_mul_right final (Nat.zero_le d)

/-- The spec's intended exact-arithmetic computation satisfies the claimed
property: for positive dimensions it is the identity when the longer
dimension is at most 800, and above 800 the output's longer dimension is
exactly 800 with the aspect ratio preserved within rounding (the two cross
products differ by less than the longer dimension).  The program's binary64
arithmetic deviates from this at some sizes — see the claim theorem below. -/
theorem intended_scaled_size_spec (w h : Nat) (_hw : 1 ≤ w) (_hh : 1 ≤ h) :
    (max w h ≤ 800 → intended_scaled_size w h 800 = (w, h)) ∧
    (800 < max w h →
      max (intended_scaled_size w h 800).1 (intended_scaled_size w h 800).2 = 800 ∧
      (intended_scaled_size w h 800).1 * h
        < (intended_scaled_size w h 800).2 * w + max w h ∧
      (intended_scaled_size w h 800).2 * w
        < (intended_scaled_size w h 800).1 * h + max w h) := by
  constructor
  · intro hle
    unfold intended_scaled_size
    rw [if_neg (by omega)]
  · intro hgt
    have hd : 0 < max w h := by omega
    unfold intended_scaled_size
    rw [if_pos hgt]
    refine ⟨?_, ?_, ?_⟩
    · rcases Nat.le_total w h with hwh | hwh
      · have hm : max w h = h := Nat.max_eq_right hwh
        rw [hm]
        have e1 : h * 800 / h = 800 := Nat.mul_div_cancel_left 800 (by omega)
        have e2 : w * 800 / h ≤ 800 := by
          calc w * 800 / h ≤ h * 800 / h :=
                Nat.div_le_div_right (Nat.mul_le_mul_right _ hwh)
            _ = 800 := e1
        rw [e1]
        exact Nat.max_eq_right e2
      · have hm : max w h = w := Nat.max_eq_left hwh
        rw [hm]
        have e1 : w * 800 / w = 800 := Nat.mul_div_cancel_left 800 (by omega)
        have e2 : h * 800 / w ≤ 800 := by
          calc h * 800 / w ≤ w * 800 / w :=
                Nat.div_le_div_right (Nat.mul_le_mul_right _ hwh)
            _ = 800 := e1
        rw [e1]
        exact Nat.max_eq_left e2
    · exact scaled_aspect w h (max w h) 800 hd (Nat.le_max_left w h)
    · exact scaled_aspect h w (max w h) 800 hd (Nat.le_max_right w h)

/-- C3: the claimed property describes the spec's intent and holds of the
intended exact-arithmetic computation, but the program's binary64 arithmetic
violates it: for a 1078×1078 image (longer dimension 1078 > 800) the code
computes `int(1078 * (800 / 1078)) = 799` — the nearest double to
`800 / 1078` lies just below the exact ratio, the product comes out as the
double just below 800, and `int` truncates it to 799 — so the resized longer
dimension is 799, not exactly 800, while the intended computation yields 800.
At 1600×1200 the code scales to exactly (800, 600) and at 400×300 it is a
no-op, both as claimed, so the deviation is input-dependent: a rounding bug
in the code relative to the spec's stated intent. -/
theorem optimize_image_size_float_bug :
    optimize_image_size_float 1078 1078 800 = (799, 799) ∧
    (optimize_image_size_float 1078 1078 800).1 ≠ 800 ∧
    intended_scaled_size 1078 1078 800 = (800, 800) ∧
    optimize_image_size_float 1600 1200 800 = (800, 600) ∧
    optimize_image_size_float 400 300 800 = (400, 300) := by
  refine ⟨by decide, by decide, by decide, by decide, by decide⟩

/-- The nearest binary64 value to `800 / 1078`, pinned against CPython's
`(800 / 1078).hex()`: the value is `6684377925596283 * 2 ^ (-53)` (significand
`6684377925596283`, field `e = -1` in the normalized representation) —
strictly below the exact ratio `400 / 539`, which is what makes the later
product round to the double just below 800. -/
theorem fl_pos_800_1078 : fl_pos 800 1078 = ⟨6684377925596283, -1⟩ := by decide

/-! ### Fault containment of the per-image unit of work -/

/-- A formatted result block is never the empty string: it starts with the
literal `"文件名: "`. -/
theorem format_result_ne_nil (n r t : List Char) : format_result n r t ≠ [] := by
  unfold format_result
  intro h
  rw [List.append_eq_nil, List.append_eq_nil, List.append_eq_nil,
    List.append_eq_nil, List.append_eq_nil, List.append_eq_nil,
    List.append_eq_nil, List.append_eq_nil] at h
  exact absurd h.1.1.1.1.1.1.1.1 (by decide)

/-- When `process_single_image` produces a payload, that payload is a
non-empty string, so Python's `if result:` test accepts it. -/
theorem process_single_image_some_ne_nil (env : List Char → ImageEnv)
    (name s : List Char) (h : process_single_image env name = some s) : s ≠ [] := by
  simp only [process_single_image] at h
  split at h
  · cases h
  · split at h
    · cases h
    · split at h
      · cases h
      · cases h
        exact format_result_ne_nil _ _ _

/-- C4: a preparation failure or a recognition failure makes that image's
unit of work yield `none`; `process_batch` always returns one result per
batch element, the result of each position depending only on that image; and
the whole batched run attempts exactly as many units as there are discovered
images.  (The embedding is `Option`-valued: the Python `except` arms catch
every exception, so no exception escapes the per-image unit of work.) -/
theorem process_single_image_fault_containment
    (env : List Char → ImageEnv) (images : List (List Char)) (mw : Nat)
    (hmw : 1 ≤ mw) :
    (∀ name : List Char, (env name).optimize = none →
        process_single_image env name = none) ∧
    (∀ name : List Char, (env name).respond = none →
        process_single_image env name = none) ∧
    (∀ batch : List (List Char), (process_batch env batch).length = batch.length) ∧
    (∀ batch : List (List Char), ∀ i : Nat,
        (process_batch env batch)[i]? = (batch[i]?).map (process_single_image env)) ∧
    ((chunk_list images mw).map (process_batch env)).flatten.length
        = images.length := by
  refine ⟨?_, ?_, ?_, ?_, ?_⟩
  · intro name h
    simp [process_single_image, h]
  · intro name h
    unfold process_single_image
    rw [h]
    cases (env name).optimize with
    | none => rfl
    | some b => exact ite_self none
  · intro batch
    simp [process_batch]
  · intro batch i
    simp [process_batch]
  · have he : process_batch env = List.map (process_single_image env) := rfl
    rw [he, ← List.map_flatten, chunk_list_flatten hmw, List.length_map]

/-- An environment in which every effectful call fails. -/
def env_fail : List Char → ImageEnv := fun _ => ⟨none, none, []⟩

/-- Witness for C4 at a concrete all-failing environment, one image, bound 1. -/
theorem process_single_image_fault_containment_witness :
    1 ≤ 1 ∧
      ((∀ name : List Char, (env_fail name).optimize = none →
          process_single_image env_fail name = none) ∧
        (∀ name : List Char, (env_fail name).respond = none →
          process_single_image env_fail name = none) ∧
        (∀ batch : List (List Char),
          (process_batch env_fail batch).length = batch.length) ∧
        (∀ batch : List (List Char), ∀ i : Nat,
          (process_batch env_fail batch)[i]?
            = (batch[i]?).map (process_single_image env_fail)) ∧
        ((chunk_list ["a.png".data] 1).map (process_batch env_fail)).flatten.length
          = ["a.png".data].length) :=
  ⟨by decide,
   process_single_image_fault_containment env_fail ["a.png".data] 1 (by decide)⟩

/-! ### The records appended during a full run -/

/-- Normal-path unfolding of `process_images`: when the listing succeeds and
the filtered image list is non-empty, the run appends one header, then the
truthy per-image blocks in discovery order, then one summary computed from
the count of discovered images. -/
theorem process_images_run (env : RunEnv) (mw : Nat) (entries : List (List Char))
    (hl : env.listing = some entries) (hne : list_images entries ≠ [])
    (hmw : 1 ≤ mw) :
    process_images env mw =
      OutputRecord.header env.start_ts ::
        (((list_images entries).filterMap
            (fun name => truthy (process_single_image env.perImage name))).map
          OutputRecord.result ++
        [OutputRecord.summary env.elapsed (list_images entries).length
          (env.elapsed / ((list_images entries).length : ℚ))]) := by
  unfold process_images
  rw [hl]
  dsimp only
  rw [if_neg hne]
  congr 2
  have he : process_batch env.perImage
      = List.map (process_single_image env.perImage) := rfl
  have he2 : (fun batch => (process_batch env.perImage batch).filterMap truthy)
      = List.filterMap (fun name => truthy (process_single_image env.perImage name)) := by
    funext batch
    rw [he, List.filterMap_map]
    rfl
  rw [he2, ← List.filterMap_flatten, chunk_list_flatten hmw]

/-- C5: for a run whose discovery succeeds with a non-empty image list (and
any bound `mw ≥ 1`), the output gains exactly one header record, exactly one
result record per succeeding image (failed images append nothing), and
exactly one summary record whose image count is the number of discovered
images and whose average is the elapsed time divided by that count. -/
theorem process_images_output_blocks (env : RunEnv) (mw : Nat)
    (entries : List (List Char)) (hl : env.listing = some entries)
    (hne : list_images entries ≠ []) (hmw : 1 ≤ mw) :
    (process_images env mw).countP OutputRecord.isHeader = 1 ∧
    (process_images env mw).countP OutputRecord.isResult
        = (list_images entries).countP
            (fun name => (process_single_image env.perImage name).isSome) ∧
    (process_images env mw).countP OutputRecord.isSummary = 1 ∧
    OutputRecord.summary env.elapsed (list_images entries).length
        (env.elapsed / ((list_images entries).length : ℚ)) ∈ process_images env mw := by
  rw [process_images_run env mw entries hl hne hmw]
  refine ⟨?_, ?_, ?_, ?_⟩
  · simp [List.countP_cons, List.countP_append, List.countP_map,
      OutputRecord.isHeader, Function.comp]
  · simp only [List.countP_cons, List.countP_append, List.countP_map]
    have h1 : OutputRecord.isHeader (OutputRecord.header env.start_ts) = true := rfl
    have h2 : (OutputRecord.isResult ∘ OutputRecord.result) = fun _ => true := rfl
    simp [OutputRecord.isResult, OutputRecord.isSummary, h2,
      List.countP_true, List.length_filterMap_eq_countP]
    refine List.countP_congr ?_
    intro name _
    cases hx : process_single_image env.perImage name with
    | none => simp [truthy, hx]
    | some s =>
      have := process_single_image_some_ne_nil env.perImage name s hx
      simp [truthy, hx, this]
  · simp [List.countP_cons, List.countP_append, List.countP_map,
      OutputRecord.isSummary, Function.comp]
  · simp

/-- An environment in which every image succeeds: the base64 payload is
`"QUJD"` and the response text is `"OK 1"`. -/
def env_ok : List Char → ImageEnv :=
  fun _ => ⟨some "QUJD".data, some "OK 1".data, "2024-01-01 00:00:00".data⟩

/-- A run whose directory listing holds one matching and one non-matching
entry, with every per-image call succeeding. -/
def run_env_ok : RunEnv :=
  ⟨some ["a.png".data, "b.txt".data], env_ok, "start".data, 4⟩

/-- Witness for C5 at the concrete run `run_env_ok` with bound 1. -/
theorem process_images_output_blocks_witness :
    run_env_ok.listing = some ["a.png".data, "b.txt".data] ∧
    list_images ["a.png".data, "b.txt".data] ≠ [] ∧ 1 ≤ 1 ∧
    ((process_images run_env_ok 1).countP OutputRecord.isHeader = 1 ∧
      (process_images run_env_ok 1).countP OutputRecord.isResult
        = (list_images ["a.png".data, "b.txt".data]).countP
            (fun name => (process_single_image run_env_ok.perImage name).isSome) ∧
      (process_images run_env_ok 1).countP OutputRecord.isSummary = 1 ∧
      OutputRecord.summary run_env_ok.elapsed
          (list_images ["a.png".data, "b.txt".data]).length
          (run_env_ok.elapsed / ((list_images ["a.png".data, "b.txt".data]).length : ℚ))
        ∈ process_images run_env_ok 1) :=
  ⟨rfl, by decide, by decide,
   process_images_output_blocks run_env_ok 1 ["a.png".data, "b.txt".data] rfl
     (by decide) (by decide)⟩

/-- C6: when discovery succeeds but no entry matches the extension filter,
the run terminates without appending any record — no header and no summary. -/
theorem process_images_empty_discovery (env : RunEnv) (mw : Nat)
    (entries : List (List Char)) (hl : env.listing = some entries)
    (hempty : list_images entries = []) :
    process_images env mw = [] := by
  unfold process_images
  rw [hl]
  dsimp only
  rw [if_pos hempty]

/-- A run whose directory listing holds no matching image file. -/
def run_env_no_images : RunEnv :=
  ⟨some ["notes.txt".data, "png".data], env_ok, "start".data, 0⟩

/-- Witness for C6 at the concrete run `run_env_no_images`. -/
theorem process_images_empty_discovery_witness :
    run_env_no_images.listing = some ["notes.txt".data, "png".data] ∧
    list_images ["notes.txt".data, "png".data] = [] ∧
    process_images run_env_no_images 3 = [] :=
  ⟨rfl, by decide,
   process_images_empty_discovery run_env_no_images 3
     ["notes.txt".data, "png".data] rfl (by decide)⟩

/-- C8: when the directory listing itself fails, the run aborts having
appended nothing to the output file. -/
theorem process_images_discovery_failure (env : RunEnv) (mw : Nat)
    (hl : env.listing = none) : process_images env mw = [] := by
  unfold process_images
  rw [hl]

/-- A run whose directory listing raises. -/
def run_env_list_fail : RunEnv := ⟨none, env_ok, "start".data, 0⟩

/-- Witness for C8 at the concrete run `run_env_list_fail`. -/
theorem process_images_discovery_failure_witness :
    run_env_list_fail.listing = none ∧ process_images run_env_list_fail 3 = [] :=
  ⟨rfl, process_images_discovery_failure run_env_list_fail 3 rfl⟩

/-! ### The discovery filter -/

/-- The source filter agrees with the spec-side predicate: a name passes
`matches_extension` iff some suffix of the name lower-cases to an allowed
extension. -/
theorem matches_extension_iff (f : List Char) :
    matches_extension f = true ↔ has_allowed_extension f := by
  unfold matches_extension has_allowed_extension
  rw [List.any_eq_true]
  constructor
  · rintro ⟨ext, hmem, hsuf⟩
    rw [List.isSuffixOf_iff_suffix] at hsuf
    obtain ⟨t, ht⟩ := hsuf
    have hlent : t.length + ext.length = f.length := by
      have h := congrArg List.length ht
      simpa [lower_name] using h
    refine ⟨ext, hmem, f.drop (f.length - ext.length), List.drop_suffix _ _, ?_⟩
    unfold lower_name at ht ⊢
    rw [List.map_drop, ← ht]
    have hlt : f.length - ext.length = t.length := by omega
    rw [hlt, List.drop_left]
  · rintro ⟨ext, hmem, s, hsuf, hlow⟩
    refine ⟨ext, hmem, ?_⟩
    rw [List.isSuffixOf_iff_suffix, ← hlow]
    exact hsuf.map Char.toLower

/-- C7: discovery returns exactly the directory entries that carry one of the
allowed extensions in some letter case — membership in the filtered list is
equivalent to membership in the listing together with the spec-side
extension predicate, so no matching entry is omitted and no non-matching
entry is returned. -/
theorem list_images_spec (entries : List (List Char)) (f : List Char) :
    f ∈ list_images entries ↔ f ∈ entries ∧ has_allowed_extension f := by
  rw [list_images, List.mem_filter, matches_extension_iff]

/-! ### The recognition request -/

/-- C9 counterexample: the claim that the request's fixed instruction text is
the English string fails at the concrete payload `"QUJD"`; the request built
by the code is not the claimed message list, because its instruction is the
Chinese literal. -/
theorem build_message_content_counterexample :
    build_message_content "QUJD".data ≠
      [ContentPart.text "recognize the text in the image:".data,
       ContentPart.image_url
        ("data:".data ++ "image/jpeg".data ++ ";base64,".data ++ "QUJD".data)] := by
  decide

/-- C9 (amended): for every prepared payload, the request content is exactly
one fixed instruction text — the Chinese literal `"识别图片的文字："` ("recognize
the text in the image:") — and one image reference whose URL is `data:`
followed by the declared media type `image/jpeg`, then `;base64,`, then the
base64 payload. -/
theorem build_message_content_spec (base64_image : List Char) :
    build_message_content base64_image =
      [ContentPart.text "识别图片的文字：".data,
       ContentPart.image_url
        ("data:".data ++ "image/jpeg".data ++ ";base64,".data ++ base64_image)] := rfl

/-- C10: the discovery filter is a pure suffix match on the lower-cased name;
in particular an entry whose entire name is `".png"` (hidden file, empty
stem) passes the filter and is returned by discovery. -/
theorem matches_extension_pure_suffix (entries : List (List Char))
    (h : ".png".data ∈ entries) :
    ".png".data ∈ list_images entries ∧
    matches_extension ".png".data = true ∧
    (∀ f : List Char, matches_extension f = true ↔
      (".png".data <:+ lower_name f ∨ ".jpg".data <:+ lower_name f ∨
       ".jpeg".data <:+ lower_name f ∨ ".gif".data <:+ lower_name f)) := by
  refine ⟨?_, by decide, ?_⟩
  · rw [list_images, List.mem_filter]
    exact ⟨h, by decide⟩
  · intro f
    unfold matches_extension allowed_extensions
    simp [List.any_eq_true, List.isSuffixOf_iff_suffix]

/-- Witness for C10 at a concrete listing holding the hidden file `".png"`. -/
theorem matches_extension_pure_suffix_witness :
    ".png".data ∈ [".png".data, "readme.md".data] ∧
      (".png".data ∈ list_images [".png".data, "readme.md".data] ∧
        matches_extension ".png".data = true ∧
        (∀ f : List Char, matches_extension f = true ↔
          (".png".data <:+ lower_name f ∨ ".jpg".data <:+ lower_name f ∨
           ".jpeg".data <:+ lower_name f ∨ ".gif".data <:+ lower_name f))) :=
  ⟨by decide,
   matches_extension_pure_suffix [".png".data, "readme.md".data] (by decide)⟩
